/-
Verification of the transaction-processing layer (OCC + Conservative 2PL)
against its specification.

The C++ sources are shallowly embedded:
  * `std::unordered_map` / `std::map` become association lists with
    first-occurrence lookup and in-place overwrite on insert (`mapFind?`,
    `mapInsert`); `unordered_map::erase(find(k))` becomes first-occurrence
    erase (`mapErase`).  Maps that the program builds only through insert
    have pairwise-distinct keys, which is carried as a `Nodup` hypothesis
    where a proof needs it.
  * `uint64_t` counters become `Nat`.  Each counter (`timestamp_counter_`,
    `txn_id_counter_`) advances by one per operation, so 64-bit wraparound
    is unreachable in any run of realistic length and is not modelled.
  * The database (`Database`, a RocksDB facade with string keys/values) is
    a string-to-string map (`Store`).
  * Mutex-protected critical sections (`OCCManager::Commit`,
    `LockManager::TryAcquireAll` / `ReleaseAll`) execute atomically, so each
    is one atomic step of the model.
-/
import Mathlib

set_option autoImplicit false

namespace TxnSys

/-! ## Association-list maps

`mapFind?` is `unordered_map::find`: the first entry with the given key.
`mapInsert` is `operator[]=`: overwrite the first occurrence in place, or
append a fresh entry.  `mapErase` is `erase(find(k))`: drop the first
occurrence only. -/

variable {α : Type} {β : Type}

def mapFind? [DecidableEq α] (m : List (α × β)) (k : α) : Option β :=
  match m with
  | [] => none
  | (k', v) :: rest => if k' = k then some v else mapFind? rest k

def mapInsert [DecidableEq α] (m : List (α × β)) (k : α) (v : β) : List (α × β) :=
  match m with
  | [] => [(k, v)]
  | (k', v') :: rest => if k' = k then (k, v) :: rest else (k', v') :: mapInsert rest k v

def mapErase [DecidableEq α] (m : List (α × β)) (k : α) : List (α × β) :=
  match m with
  | [] => []
  | (k', v') :: rest => if k' = k then rest else (k', v') :: mapErase rest k

theorem mapFind?_nil [DecidableEq α] (k : α) : mapFind? ([] : List (α × β)) k = none := rfl

theorem mapFind?_mapInsert [DecidableEq α] (m : List (α × β)) (k k' : α) (v : β) :
    mapFind? (mapInsert m k v) k' = if k = k' then some v else mapFind? m k' := by
  induction m with
  | nil => simp [mapInsert, mapFind?]
  | cons hd tl ih =>
    obtain ⟨k₀, v₀⟩ := hd
    by_cases h₀ : k₀ = k
    · subst h₀
      simp only [mapInsert, if_pos rfl, mapFind?]
      by_cases h₁ : k₀ = k'
      · simp [h₁]
      · simp [h₁]
    · simp only [mapInsert, if_neg h₀, mapFind?]
      by_cases h₁ : k₀ = k'
      · subst h₁
        rw [if_pos rfl, if_neg (fun h => h₀ h.symm), if_pos rfl]
      · rw [if_neg h₁, ih, if_neg h₁]

theorem mapFind?_mapErase_ne [DecidableEq α] (m : List (α × β)) (k k' : α) (h : k ≠ k') :
    mapFind? (mapErase m k) k' = mapFind? m k' := by
  induction m with
  | nil => rfl
  | cons hd tl ih =>
    obtain ⟨k₀, v₀⟩ := hd
    by_cases h₀ : k₀ = k
    · subst h₀
      have : ¬ k₀ = k' := fun hh => h hh
      simp [mapErase, mapFind?, this]
    · simp [mapErase, mapFind?, h₀, ih]

/-- Keys of an association list, as recorded left to right. -/
def mapKeys (m : List (α × β)) : List α := m.map Prod.fst

theorem mapFind?_eq_none_of_not_mem_mapKeys [DecidableEq α] (m : List (α × β)) (k : α)
    (h : k ∉ mapKeys m) : mapFind? m k = none := by
  induction m with
  | nil => rfl
  | cons hd tl ih =>
    obtain ⟨k₀, v₀⟩ := hd
    simp only [mapKeys, List.map_cons, List.mem_cons, not_or] at h
    rw [mapFind?.eq_def]
    simp only [if_neg (fun hh : k₀ = k => h.1 hh.symm)]
    exact ih h.2

theorem mapFind?_mapErase_self [DecidableEq α] (m : List (α × β)) (k : α)
    (hnd : (mapKeys m).Nodup) : mapFind? (mapErase m k) k = none := by
  induction m with
  | nil => rfl
  | cons hd tl ih =>
    obtain ⟨k₀, v₀⟩ := hd
    simp only [mapKeys, List.map_cons, List.nodup_cons] at hnd
    by_cases h₀ : k₀ = k
    · subst h₀
      simp only [mapErase, if_pos rfl]
      exact mapFind?_eq_none_of_not_mem_mapKeys tl k₀ hnd.1
    · rw [mapErase.eq_def]
      simp only [if_neg h₀]
      rw [mapFind?.eq_def]
      simp only [if_neg h₀]
      exact ih hnd.2

theorem mapKeys_mapErase_sublist [DecidableEq α] (m : List (α × β)) (k : α) :
    (mapKeys (mapErase m k)).Sublist (mapKeys m) := by
  induction m with
  | nil => exact List.Sublist.refl _
  | cons hd tl ih =>
    obtain ⟨k₀, v₀⟩ := hd
    by_cases h₀ : k₀ = k
    · simp only [mapErase, if_pos h₀, mapKeys, List.map_cons]
      exact List.Sublist.cons _ (List.Sublist.refl _)
    · simp only [mapErase, if_neg h₀, mapKeys, List.map_cons]
      exact List.Sublist.cons₂ _ ih

theorem mapKeys_mapErase_nodup [DecidableEq α] (m : List (α × β)) (k : α)
    (hnd : (mapKeys m).Nodup) : (mapKeys (mapErase m k)).Nodup :=
  (mapKeys_mapErase_sublist m k).nodup hnd

/-! ## Store (C1): the RocksDB facade, as a key-value map. -/

/-- `Database` contents: string keys to string values (`database.h`). -/
abbrev Store := List (String × String)

/-- `Database::Get`. -/
def storeGet (db : Store) (k : String) : Option String := mapFind? db k

/-- `Database::Put`. -/
def storePut (db : Store) (k v : String) : Store := mapInsert db k v

/-! ## Transaction object (C2 of the spec; `transaction.h` / `transaction.cpp`). -/

/-- `TxnStatus` (`transaction.h`). -/
inductive TxnStatus where
  | ACTIVE
  | COMMITTED
  | ABORTED
deriving DecidableEq, Repr

/-- The `Transaction` struct (`transaction.h`).  `wall_start` (a wall-clock
instant used only for latency metrics) is not modelled. -/
structure Transaction where
  txn_id : Nat
  type_name : String := ""
  start_ts : Nat := 0
  validation_ts : Nat := 0
  finish_ts : Nat := 0
  status : TxnStatus := .ACTIVE
  read_set : List (String × String) := []
  write_set : List (String × String) := []
  lock_keys : List String := []
  retry_count : Nat := 0
deriving DecidableEq, Repr

/-- `Transaction::Read` (`transaction.cpp`): read-your-writes — consult the
write buffer first, else the database; a value actually observed is recorded
into `read_set`. -/
def Transaction.Read (txn : Transaction) (key : String) (db : Store) :
    Option String × Transaction :=
  match mapFind? txn.write_set key with
  | some v => (some v, { txn with read_set := mapInsert txn.read_set key v })
  | none =>
    match storeGet db key with
    | some v => (some v, { txn with read_set := mapInsert txn.read_set key v })
    | none => (none, txn)

/-- `Transaction::Write` (`transaction.cpp`): buffer into `write_set` only. -/
def Transaction.Write (txn : Transaction) (key value : String) : Transaction :=
  { txn with write_set := mapInsert txn.write_set key value }

/-- C7: the three branches of `Transaction::Read`, plus read-your-writes. -/
theorem transaction_read_spec (txn : Transaction) (db : Store) (key : String) :
    (∀ v, mapFind? txn.write_set key = some v →
      (txn.Read key db).1 = some v ∧
      (txn.Read key db).2.read_set = mapInsert txn.read_set key v) ∧
    (mapFind? txn.write_set key = none → ∀ v, storeGet db key = some v →
      (txn.Read key db).1 = some v ∧
      (txn.Read key db).2.read_set = mapInsert txn.read_set key v) ∧
    (mapFind? txn.write_set key = none → storeGet db key = none →
      (txn.Read key db).1 = none ∧ (txn.Read key db).2 = txn) ∧
    (∀ v, ((txn.Write key v).Read key db).1 = some v) := by
  refine ⟨?_, ?_, ?_, ?_⟩
  · intro v hv
    simp [Transaction.Read, hv]
  · intro hw v hv
    simp [Transaction.Read, hw, hv]
  · intro hw hv
    simp [Transaction.Read, hw, hv]
  · intro v
    simp [Transaction.Read, Transaction.Write, mapFind?_mapInsert]

/-- Witness for `transaction_read_spec` at a concrete transaction and store. -/
theorem transaction_read_spec_witness :
    (({ txn_id := 1, write_set := [("a", "5")] } : Transaction).Read "a"
        [("b", "7")]).1 = some "5" ∧
    (({ txn_id := 1 } : Transaction).Read "b" [("b", "7")]).1 = some "7" ∧
    (({ txn_id := 1 } : Transaction).Read "c" [("b", "7")]).2.read_set = [] ∧
    ((({ txn_id := 1 } : Transaction).Write "k" "9").Read "k" [("b", "7")]).1 = some "9" := by
  have h1 := (transaction_read_spec { txn_id := 1, write_set := [("a", "5")] }
    [("b", "7")] "a").1 "5" (by decide)
  have h2 := (transaction_read_spec { txn_id := 1 } [("b", "7")] "b").2.1
    (by decide) "7" (by decide)
  have h3 := (transaction_read_spec { txn_id := 1 } [("b", "7")] "c").2.2.1
    (by decide) (by decide)
  have h4 := (transaction_read_spec { txn_id := 1 } [("b", "7")] "k").2.2.2 "9"
  exact ⟨h1.1, h2.1, by rw [h3.2], h4⟩

/-! ## Lock table (C4 of the spec; `twopl_manager.cpp`).

`lock_table_` maps a key to its holder's `txn_id`; an absent entry or holder
`0` means free. -/

/-- The lock table: `std::unordered_map<std::string, uint64_t>`. -/
abbrev LockTable := List (String × Nat)

/-- The phase-1 test of `LockManager::TryAcquireAll` for one key:
`it != lock_table_.end() && it->second != 0`. -/
def lockHeld (table : LockTable) (k : String) : Bool :=
  match mapFind? table k with
  | some h => h != 0
  | none => false

/-- `LockManager::TryAcquireAll`: under the table mutex, first check every
key is free; only then assign every key to `txn_id`.  Returns the flag and
the updated table. -/
def LockManager.TryAcquireAll (table : LockTable) (txn_id : Nat)
    (keys : List String) : Bool × LockTable :=
  if keys.any (lockHeld table) then (false, table)
  else (true, keys.foldl (fun t k => mapInsert t k txn_id) table)

/-- `LockManager::ReleaseAll`: erase each listed entry whose holder is
`txn_id`; entries held by someone else are left untouched. -/
def LockManager.ReleaseAll (table : LockTable) (txn_id : Nat)
    (keys : List String) : LockTable :=
  keys.foldl
    (fun t k =>
      match mapFind? t k with
      | some h => if h = txn_id then mapErase t k else t
      | none => t)
    table

theorem find_foldl_mapInsert (keys : List String) (t : LockTable) (v k) :
    mapFind? (keys.foldl (fun t k => mapInsert t k v) t) k =
      if k ∈ keys then some v else mapFind? t k := by
  induction keys generalizing t with
  | nil => simp
  | cons a ks ih =>
    rw [List.foldl_cons, ih]
    by_cases hk : k ∈ ks
    · simp [hk]
    · rw [if_neg hk, mapFind?_mapInsert]
      by_cases ha : a = k
      · simp [ha]
      · have hka : ¬ k ∈ a :: ks := by
          intro h
          rcases List.mem_cons.mp h with h | h
          · exact ha h.symm
          · exact hk h
        rw [if_neg ha, if_neg hka]

theorem releaseAll_step_keys_nodup (t : LockTable) (txn_id : Nat) (k : String)
    (hnd : (mapKeys t).Nodup) :
    (mapKeys
      (match mapFind? t k with
       | some h => if h = txn_id then mapErase t k else t
       | none => t)).Nodup := by
  cases mapFind? t k with
  | none => exact hnd
  | some h =>
    by_cases hh : h = txn_id
    · simpa [hh] using mapKeys_mapErase_nodup t k hnd
    · simpa [hh] using hnd

theorem releaseAll_nil (t : LockTable) (txn_id : Nat) :
    LockManager.ReleaseAll t txn_id [] = t := rfl

theorem releaseAll_cons (t : LockTable) (txn_id : Nat) (a : String)
    (ks : List String) :
    LockManager.ReleaseAll t txn_id (a :: ks) =
      LockManager.ReleaseAll
        (match mapFind? t a with
         | some h => if h = txn_id then mapErase t a else t
         | none => t) txn_id ks := rfl

theorem releaseAll_find (keys : List String) (t : LockTable) (txn_id : Nat)
    (k : String) (hnd : (mapKeys t).Nodup) :
    mapFind? (LockManager.ReleaseAll t txn_id keys) k =
      if k ∈ keys ∧ mapFind? t k = some txn_id then none else mapFind? t k := by
  induction keys generalizing t with
  | nil => simp [releaseAll_nil]
  | cons a ks ih =>
    rw [releaseAll_cons]
    have hstep := releaseAll_step_keys_nodup t txn_id a hnd
    rw [ih _ hstep]
    by_cases ha : k = a
    · subst ha
      cases hfind : mapFind? t k with
      | none =>
        simp [hfind]
      | some h =>
        by_cases hh : h = txn_id
        · subst hh
          have herased : mapFind? (mapErase t k) k = none :=
            mapFind?_mapErase_self t k hnd
          simp [hfind, herased]
        · simp [hfind, hh]
    · have hne : mapFind?
          (match mapFind? t a with
           | some h => if h = txn_id then mapErase t a else t
           | none => t) k = mapFind? t k := by
        cases mapFind? t a with
        | none => rfl
        | some h =>
          by_cases hh : h = txn_id
          · simpa [hh] using mapFind?_mapErase_ne t a k (fun h' => ha h'.symm)
          · simp [hh]
      rw [hne]
      simp [ha]

/-- Nodup of the key column is preserved by `ReleaseAll`. -/
theorem releaseAll_keys_nodup (keys : List String) (t : LockTable) (txn_id : Nat)
    (hnd : (mapKeys t).Nodup) :
    (mapKeys (LockManager.ReleaseAll t txn_id keys)).Nodup := by
  induction keys generalizing t with
  | nil => exact hnd
  | cons a ks ih =>
    rw [releaseAll_cons]
    exact ih _ (releaseAll_step_keys_nodup t txn_id a hnd)

/-- C5: `TryAcquireAll` is all-or-nothing — if any key is held it fails and
leaves the table exactly as it was; otherwise it succeeds and every listed
key is assigned to `txn_id` while all other keys keep their entry.  With
`keys = []` it succeeds immediately, and `ReleaseAll` of `[]` is a no-op. -/
theorem lock_try_acquire_all_spec (table : LockTable) (txn_id : Nat)
    (keys : List String) :
    ((∃ k ∈ keys, lockHeld table k = true) →
      LockManager.TryAcquireAll table txn_id keys = (false, table)) ∧
    ((∀ k ∈ keys, lockHeld table k = false) →
      (LockManager.TryAcquireAll table txn_id keys).1 = true ∧
      (∀ k ∈ keys,
        mapFind? (LockManager.TryAcquireAll table txn_id keys).2 k = some txn_id) ∧
      (∀ k, k ∉ keys →
        mapFind? (LockManager.TryAcquireAll table txn_id keys).2 k = mapFind? table k)) ∧
    LockManager.TryAcquireAll table txn_id [] = (true, table) ∧
    LockManager.ReleaseAll table txn_id [] = table := by
  refine ⟨?_, ?_, ?_, ?_⟩
  · intro ⟨k, hk, hheld⟩
    have hany : keys.any (lockHeld table) = true := List.any_eq_true.mpr ⟨k, hk, hheld⟩
    simp [LockManager.TryAcquireAll, hany]
  · intro hfree
    have hany : keys.any (lockHeld table) = false := by
      rw [List.any_eq_false]
      intro k hk
      simp [hfree k hk]
    refine ⟨?_, ?_, ?_⟩
    · simp [LockManager.TryAcquireAll, hany]
    · intro k hk
      simp [LockManager.TryAcquireAll, hany, find_foldl_mapInsert, hk]
    · intro k hk
      simp [LockManager.TryAcquireAll, hany, find_foldl_mapInsert, hk]
  · simp [LockManager.TryAcquireAll]
  · simp [LockManager.ReleaseAll]

/-- Witness for `lock_try_acquire_all_spec`: a held key makes acquisition
fail without change; on a free table acquisition assigns both keys. -/
theorem lock_try_acquire_all_spec_witness :
    LockManager.TryAcquireAll [("a", 7)] 3 ["a", "b"] = (false, [("a", 7)]) ∧
    (LockManager.TryAcquireAll [("a", 0)] 3 ["a", "b"]).1 = true ∧
    mapFind? (LockManager.TryAcquireAll [("a", 0)] 3 ["a", "b"]).2 "b" = some 3 := by
  have h1 := (lock_try_acquire_all_spec [("a", 7)] 3 ["a", "b"]).1
    ⟨"a", by decide, by decide⟩
  have h2 := (lock_try_acquire_all_spec [("a", 0)] 3 ["a", "b"]).2.1
    (by decide)
  exact ⟨h1, h2.1, h2.2.1 "b" (by decide)⟩

/-- C10: duplicate keys in the argument list change nothing.  Acquisition
succeeds exactly when every distinct key is free, and both the flag and the
resulting table agree with the call on the deduplicated list; `ReleaseAll`
with duplicates is extensionally the release of the deduplicated list. -/
theorem lock_duplicate_keys_spec (table : LockTable) (txn_id : Nat)
    (keys : List String) :
    ((LockManager.TryAcquireAll table txn_id keys).1 = true ↔
      ∀ k ∈ keys.dedup, lockHeld table k = false) ∧
    ((LockManager.TryAcquireAll table txn_id keys).1 =
      (LockManager.TryAcquireAll table txn_id keys.dedup).1) ∧
    (∀ k, mapFind? (LockManager.TryAcquireAll table txn_id keys).2 k =
      mapFind? (LockManager.TryAcquireAll table txn_id keys.dedup).2 k) ∧
    ((mapKeys table).Nodup → ∀ k,
      mapFind? (LockManager.ReleaseAll table txn_id keys) k =
      mapFind? (LockManager.ReleaseAll table txn_id keys.dedup) k) := by
  have hany : keys.any (lockHeld table) = keys.dedup.any (lockHeld table) := by
    by_cases h : ∃ k ∈ keys, lockHeld table k = true
    · obtain ⟨k, hk, hh⟩ := h
      rw [List.any_eq_true.mpr ⟨k, hk, hh⟩,
        List.any_eq_true.mpr ⟨k, List.mem_dedup.mpr hk, hh⟩]
    · push_neg at h
      rw [List.any_eq_false.mpr (fun k hk => by simp [h k hk]),
        List.any_eq_false.mpr (fun k hk => by simp [h k (List.mem_dedup.mp hk)])]
  refine ⟨?_, ?_, ?_, ?_⟩
  · constructor
    · intro hsucc k hk
      by_contra hheld
      have : lockHeld table k = true := by
        cases hlh : lockHeld table k
        · exact absurd hlh hheld
        · rfl
      have : keys.any (lockHeld table) = true :=
        List.any_eq_true.mpr ⟨k, List.mem_dedup.mp hk, this⟩
      simp [LockManager.TryAcquireAll, this] at hsucc
    · intro hfree
      have : keys.any (lockHeld table) = false := by
        rw [List.any_eq_false]
        intro k hk
        simp [hfree k (List.mem_dedup.mpr hk)]
      simp [LockManager.TryAcquireAll, this]
  · by_cases h : keys.any (lockHeld table) = true
    · simp [LockManager.TryAcquireAll, h, hany.symm.trans h]
    · have h' : keys.any (lockHeld table) = false := by
        cases hh : keys.any (lockHeld table)
        · rfl
        · exact absurd hh h
      simp [LockManager.TryAcquireAll, h', hany.symm.trans h']
  · intro k
    by_cases h : keys.any (lockHeld table) = true
    · simp [LockManager.TryAcquireAll, h, hany.symm.trans h]
    · have h' : keys.any (lockHeld table) = false := by
        cases hh : keys.any (lockHeld table)
        · rfl
        · exact absurd hh h
      simp [LockManager.TryAcquireAll, h', hany.symm.trans h',
        find_foldl_mapInsert, List.mem_dedup]
  · intro hnd k
    rw [releaseAll_find _ _ _ _ hnd, releaseAll_find _ _ _ _ hnd]
    simp only [List.mem_dedup]

/-- Witness for `lock_duplicate_keys_spec`: acquiring `["a", "a"]` succeeds
(a duplicate never conflicts with itself), and releasing `["a", "a"]`
releases `a` once, like releasing `["a"]`. -/
theorem lock_duplicate_keys_spec_witness :
    (LockManager.TryAcquireAll [] 3 ["a", "a"]).1 = true ∧
    mapFind? (LockManager.ReleaseAll [("a", 3), ("b", 4)] 3 ["a", "a"]) "a" = none ∧
    mapFind? (LockManager.ReleaseAll [("a", 3), ("b", 4)] 3 ["a", "a"]) "b" =
      mapFind? (LockManager.ReleaseAll [("a", 3), ("b", 4)] 3 (["a", "a"] : List String).dedup) "b" := by
  have h1 := ((lock_duplicate_keys_spec [] 3 ["a", "a"]).1).mpr
    (by decide)
  have h4 := (lock_duplicate_keys_spec [("a", 3), ("b", 4)] 3 ["a", "a"]).2.2.2
    (by decide)
  refine ⟨h1, ?_, h4 "b"⟩
  rw [h4 "a"]
  decide

/-! ## OCC manager (C3 of the spec; `occ_manager.h` / `occ_manager.cpp`). -/

/-- `CommitResult` (`transaction_manager.h`). -/
structure CommitResult where
  success : Bool
  txn_id : Nat
  retries : Nat
deriving DecidableEq, Repr

/-- `CommittedTxnRecord` (`occ_manager.h`).  `write_keys` is
`std::set<std::string>` filled from the write buffer's keys; since the
buffer is a map its key list is already duplicate-free, so a list of those
keys carries the same membership information. -/
structure CommittedTxnRecord where
  txn_id : Nat
  finish_ts : Nat
  write_keys : List String
deriving DecidableEq, Repr

/-- `OCCManager`'s mutable fields (`timestamp_counter_`, `txn_id_counter_`,
`committed_history_`) together with the contents of the `Database&` it
writes through.  The validation mutex serializes `Commit`, so `Commit` is
one atomic step on this state. -/
structure OCCState where
  timestamp_counter : Nat := 0
  txn_id_counter : Nat := 0
  committed_history : List CommittedTxnRecord := []
  store : Store := []
deriving DecidableEq, Repr

/-- `OCCManager::Begin`: fresh `txn_id`, `start_ts` snapshots the counter
without incrementing it. -/
def OCCManager.Begin (s : OCCState) (type_name : String) :
    Transaction × OCCState :=
  ({ txn_id := s.txn_id_counter + 1, type_name := type_name,
     start_ts := s.timestamp_counter, status := .ACTIVE },
   { s with txn_id_counter := s.txn_id_counter + 1 })

/-- `OCCManager::Validate`: scan the committed history; any record that
finished after this transaction started and wrote a key in its read set is
a conflict. -/
def OCCManager.Validate (committed_history : List CommittedTxnRecord)
    (txn : Transaction) : Bool :=
  committed_history.all fun record =>
    if record.finish_ts > txn.start_ts then
      record.write_keys.all fun write_key =>
        (mapFind? txn.read_set write_key).isNone
    else true

/-- The outcome of `OCCManager::Commit`: the returned `CommitResult`, the
transaction as mutated through its reference, and the manager state. -/
structure OCCCommitOut where
  result : CommitResult
  txn : Transaction
  state : OCCState
deriving DecidableEq, Repr

/-- Apply a write buffer to the store, one `Put` per entry in order. -/
def applyWrites (db : Store) (write_set : List (String × String)) : Store :=
  write_set.foldl (fun db kv => storePut db kv.1 kv.2) db

/-- `OCCManager::Commit`: under the validation mutex, allocate
`validation_ts = ++timestamp_counter_`, validate; on failure mark ABORTED
and return `success=false`; on success apply the write buffer, allocate
`finish_ts = ++timestamp_counter_`, mark COMMITTED and append the history
record. -/
def OCCManager.Commit (s : OCCState) (txn : Transaction) : OCCCommitOut :=
  let txn₁ := { txn with validation_ts := s.timestamp_counter + 1 }
  let s₁ := { s with timestamp_counter := s.timestamp_counter + 1 }
  if !OCCManager.Validate s₁.committed_history txn₁ then
    { result := ⟨false, txn₁.txn_id, txn₁.retry_count⟩,
      txn := { txn₁ with status := .ABORTED },
      state := s₁ }
  else
    let db := applyWrites s₁.store txn₁.write_set
    let txn₂ :=
      { txn₁ with
        finish_ts := s₁.timestamp_counter + 1
        status := .COMMITTED }
    { result := ⟨true, txn₂.txn_id, txn₂.retry_count⟩,
      txn := txn₂,
      state :=
        { s₁ with
          timestamp_counter := s₁.timestamp_counter + 1
          store := db
          committed_history := s₁.committed_history ++
            [⟨txn₂.txn_id, txn₂.finish_ts, mapKeys txn₂.write_set⟩] } }

/-- `OCCManager::Abort`: mark ABORTED and clear both buffers; the store is
untouched. -/
def OCCManager.Abort (txn : Transaction) : Transaction :=
  { txn with status := .ABORTED, read_set := [], write_set := [] }

/-- `OCCManager::GarbageCollect`: drop every record with
`finish_ts ≤ min_active_start_ts`. -/
def OCCManager.GarbageCollect (s : OCCState) (min_active_start_ts : Nat) :
    OCCState :=
  { s with committed_history :=
      s.committed_history.filter fun r =>
        !(r.finish_ts ≤ min_active_start_ts) }

/-- The spec's conflict condition, stated in its own words: some committed
record finished after the transaction started and wrote a key the
transaction read. -/
def ConflictsWith (committed_history : List CommittedTxnRecord)
    (txn : Transaction) : Prop :=
  ∃ r ∈ committed_history, r.finish_ts > txn.start_ts ∧
    ∃ k ∈ r.write_keys, mapFind? txn.read_set k ≠ none

instance (committed_history : List CommittedTxnRecord) (txn : Transaction) :
    Decidable (ConflictsWith committed_history txn) := by
  unfold ConflictsWith
  infer_instance

theorem validate_eq_true_iff (h : List CommittedTxnRecord) (txn : Transaction) :
    OCCManager.Validate h txn = true ↔ ¬ ConflictsWith h txn := by
  rw [OCCManager.Validate, List.all_eq_true, ConflictsWith]
  push_neg
  constructor
  · intro hall r hr hts k hk
    have h1 := hall r hr
    rw [if_pos hts, List.all_eq_true] at h1
    exact Option.isNone_iff_eq_none.mp (h1 k hk)
  · intro himp r hr
    by_cases hts : r.finish_ts > txn.start_ts
    · rw [if_pos hts, List.all_eq_true]
      intro k hk
      exact Option.isNone_iff_eq_none.mpr (himp r hr hts k hk)
    · rw [if_neg hts]

theorem applyWrites_cons (db : Store) (kv : String × String)
    (tl : List (String × String)) :
    applyWrites db (kv :: tl) = applyWrites (storePut db kv.1 kv.2) tl := rfl

theorem applyWrites_find_not_mem (ws : List (String × String)) (db : Store)
    (k : String) (h : k ∉ mapKeys ws) :
    storeGet (applyWrites db ws) k = storeGet db k := by
  induction ws generalizing db with
  | nil => rfl
  | cons hd tl ih =>
    obtain ⟨k₀, v₀⟩ := hd
    simp only [mapKeys, List.map_cons, List.mem_cons, not_or] at h
    rw [applyWrites_cons, ih _ h.2]
    unfold storeGet storePut
    rw [mapFind?_mapInsert, if_neg (fun hh : k₀ = k => h.1 hh.symm)]

theorem applyWrites_find_mem (ws : List (String × String)) (db : Store)
    (k : String) (v : String) (hnd : (mapKeys ws).Nodup)
    (h : mapFind? ws k = some v) :
    storeGet (applyWrites db ws) k = some v := by
  induction ws generalizing db with
  | nil => exact absurd h (by simp [mapFind?])
  | cons hd tl ih =>
    obtain ⟨k₀, v₀⟩ := hd
    simp only [mapKeys, List.map_cons, List.nodup_cons] at hnd
    by_cases hk : k₀ = k
    · subst hk
      have h' : v₀ = v := by
        rw [mapFind?.eq_def] at h
        simpa using h
      rw [applyWrites_cons,
        applyWrites_find_not_mem tl _ k₀ hnd.1]
      unfold storeGet storePut
      rw [mapFind?_mapInsert, if_pos rfl, h']
    · have h' : mapFind? tl k = some v := by
        rw [mapFind?.eq_def] at h
        simpa [hk] using h
      rw [applyWrites_cons]
      exact ih _ hnd.2 h'

/-- C1: `Commit` aborts exactly on the spec's conflict condition: it then
returns `success=false`, marks the transaction ABORTED, and leaves both the
store and the committed history untouched; otherwise it returns
`success=true`, marks it COMMITTED, every buffered write is visible in the
store, and a history record carrying the write keys is appended. -/
theorem occ_commit_spec (s : OCCState) (txn : Transaction)
    (hw : (mapKeys txn.write_set).Nodup) :
    (ConflictsWith s.committed_history txn →
      (OCCManager.Commit s txn).result.success = false ∧
      (OCCManager.Commit s txn).txn.status = .ABORTED ∧
      (OCCManager.Commit s txn).state.store = s.store ∧
      (OCCManager.Commit s txn).state.committed_history =
        s.committed_history) ∧
    (¬ ConflictsWith s.committed_history txn →
      (OCCManager.Commit s txn).result.success = true ∧
      (OCCManager.Commit s txn).txn.status = .COMMITTED ∧
      (∀ k v, mapFind? txn.write_set k = some v →
        storeGet (OCCManager.Commit s txn).state.store k = some v) ∧
      (OCCManager.Commit s txn).state.committed_history =
        s.committed_history ++
          [⟨txn.txn_id, (OCCManager.Commit s txn).txn.finish_ts,
            mapKeys txn.write_set⟩]) := by
  have hvalc : OCCManager.Validate s.committed_history
      { txn with validation_ts := s.timestamp_counter + 1 } =
      OCCManager.Validate s.committed_history txn := rfl
  constructor
  · intro hc
    have hv : OCCManager.Validate s.committed_history txn = false := by
      cases hvb : OCCManager.Validate s.committed_history txn
      · rfl
      · exact absurd hc ((validate_eq_true_iff _ _).mp hvb)
    simp [OCCManager.Commit, hvalc, hv]
  · intro hc
    have hv : OCCManager.Validate s.committed_history txn = true :=
      (validate_eq_true_iff _ _).mpr hc
    refine ⟨?_, ?_, ?_, ?_⟩
    · simp [OCCManager.Commit, hvalc, hv]
    · simp [OCCManager.Commit, hvalc, hv]
    · intro k v hkv
      simp only [OCCManager.Commit, hvalc, hv, Bool.not_true, Bool.false_eq_true,
        if_false]
      exact applyWrites_find_mem _ _ _ _ hw hkv
    · simp [OCCManager.Commit, hvalc, hv]

/-- Witness for `occ_commit_spec`: a conflicting commit fails and changes
nothing; a conflict-free commit succeeds and its write reaches the store. -/
theorem occ_commit_spec_witness :
    (OCCManager.Commit
      { timestamp_counter := 5, txn_id_counter := 2,
        committed_history := [⟨1, 4, ["k"]⟩], store := [("k", "1")] }
      { txn_id := 2, start_ts := 3, read_set := [("k", "1")],
        write_set := [("k", "2")] }).result.success = false ∧
    (OCCManager.Commit
      { timestamp_counter := 5, txn_id_counter := 2,
        committed_history := [⟨1, 4, ["k"]⟩], store := [("k", "1")] }
      { txn_id := 2, start_ts := 4, read_set := [("k", "1")],
        write_set := [("k", "2")] }).result.success = true ∧
    storeGet (OCCManager.Commit
      { timestamp_counter := 5, txn_id_counter := 2,
        committed_history := [⟨1, 4, ["k"]⟩], store := [("k", "1")] }
      { txn_id := 2, start_ts := 4, read_set := [("k", "1")],
        write_set := [("k", "2")] }).state.store "k" = some "2" := by
  have h1 := (occ_commit_spec
    { timestamp_counter := 5, txn_id_counter := 2,
      committed_history := [⟨1, 4, ["k"]⟩], store := [("k", "1")] }
    { txn_id := 2, start_ts := 3, read_set := [("k", "1")],
      write_set := [("k", "2")] } (by decide)).1 (by decide)
  have h2 := (occ_commit_spec
    { timestamp_counter := 5, txn_id_counter := 2,
      committed_history := [⟨1, 4, ["k"]⟩], store := [("k", "1")] }
    { txn_id := 2, start_ts := 4, read_set := [("k", "1")],
      write_set := [("k", "2")] } (by decide)).2 (by decide)
  exact ⟨h1.1, h2.1, h2.2.2.1 "k" "2" (by decide)⟩

/-- C3 as stated is false: an OCC commit whose validation fails marks the
transaction ABORTED but does **not** clear its read and write sets — only
the explicit `Abort` call clears them.  Concrete refutation: after a
conflicting commit the status is ABORTED while `read_set` is non-empty. -/
theorem occ_failed_commit_keeps_sets :
    ((OCCManager.Commit
      { timestamp_counter := 5, txn_id_counter := 2,
        committed_history := [⟨1, 4, ["k"]⟩], store := [("k", "1")] }
      { txn_id := 2, start_ts := 3, read_set := [("k", "1")],
        write_set := [("k", "2")] }).txn.status = .ABORTED ∧
     (OCCManager.Commit
      { timestamp_counter := 5, txn_id_counter := 2,
        committed_history := [⟨1, 4, ["k"]⟩], store := [("k", "1")] }
      { txn_id := 2, start_ts := 3, read_set := [("k", "1")],
        write_set := [("k", "2")] }).txn.read_set = [("k", "1")]) ∧
    ¬ ((OCCManager.Commit
      { timestamp_counter := 5, txn_id_counter := 2,
        committed_history := [⟨1, 4, ["k"]⟩], store := [("k", "1")] }
      { txn_id := 2, start_ts := 3, read_set := [("k", "1")],
        write_set := [("k", "2")] }).txn.read_set = []) := by
  decide

/-- C3 amended: an explicit `Abort` marks the transaction ABORTED, clears
both buffers and performs no store mutation; a commit whose validation
fails marks it ABORTED and leaves the store and history untouched, but its
`read_set` and `write_set` keep their previous contents. -/
theorem abort_cleanliness (s : OCCState) (txn : Transaction) :
    ((OCCManager.Abort txn).status = .ABORTED ∧
     (OCCManager.Abort txn).read_set = [] ∧
     (OCCManager.Abort txn).write_set = []) ∧
    (ConflictsWith s.committed_history txn →
      (OCCManager.Commit s txn).txn.status = .ABORTED ∧
      (OCCManager.Commit s txn).state.store = s.store ∧
      (OCCManager.Commit s txn).state.committed_history = s.committed_history ∧
      (OCCManager.Commit s txn).txn.read_set = txn.read_set ∧
      (OCCManager.Commit s txn).txn.write_set = txn.write_set) := by
  have hvalc : OCCManager.Validate s.committed_history
      { txn with validation_ts := s.timestamp_counter + 1 } =
      OCCManager.Validate s.committed_history txn := rfl
  refine ⟨⟨rfl, rfl, rfl⟩, ?_⟩
  intro hc
  have hv : OCCManager.Validate s.committed_history txn = false := by
    cases hvb : OCCManager.Validate s.committed_history txn
    · rfl
    · exact absurd hc ((validate_eq_true_iff _ _).mp hvb)
  simp [OCCManager.Commit, hvalc, hv]

/-- Witness for `abort_cleanliness` at the conflicting input of the
counterexample. -/
theorem abort_cleanliness_witness :
    (OCCManager.Abort
      { txn_id := 9, read_set := [("a", "1")],
        write_set := [("b", "2")] }).read_set = [] ∧
    (OCCManager.Commit
      { timestamp_counter := 5, txn_id_counter := 2,
        committed_history := [⟨1, 4, ["k"]⟩], store := [("k", "1")] }
      { txn_id := 2, start_ts := 3, read_set := [("k", "1")],
        write_set := [("k", "2")] }).state.store = [("k", "1")] := by
  have h1 := (abort_cleanliness
    { timestamp_counter := 5, txn_id_counter := 2,
      committed_history := [⟨1, 4, ["k"]⟩], store := [("k", "1")] }
    { txn_id := 9, read_set := [("a", "1")], write_set := [("b", "2")] }).1
  have h2 := (abort_cleanliness
    { timestamp_counter := 5, txn_id_counter := 2,
      committed_history := [⟨1, 4, ["k"]⟩], store := [("k", "1")] }
    { txn_id := 2, start_ts := 3, read_set := [("k", "1")],
      write_set := [("k", "2")] }).2 (by decide)
  exact ⟨h1.2.1, h2.2.1⟩

/-- C9: validation consults only the read set, so a transaction whose
read set is empty at commit time (blind writes only) always commits,
whatever the committed history holds. -/
theorem occ_empty_read_set_commits (s : OCCState) (txn : Transaction)
    (h : txn.read_set = []) :
    (OCCManager.Commit s txn).result.success = true ∧
    (OCCManager.Commit s txn).txn.status = .COMMITTED := by
  have hv : OCCManager.Validate s.committed_history txn = true := by
    rw [validate_eq_true_iff]
    rintro ⟨r, hr, hts, k, hk, hfind⟩
    exact hfind (by rw [h]; rfl)
  have hvalc : OCCManager.Validate s.committed_history
      { txn with validation_ts := s.timestamp_counter + 1 } =
      OCCManager.Validate s.committed_history txn := rfl
  constructor
  · simp [OCCManager.Commit, hvalc, hv]
  · simp [OCCManager.Commit, hvalc, hv]

/-- Witness for `occ_empty_read_set_commits`: a blind write over a history
that overwrote every key still commits. -/
theorem occ_empty_read_set_commits_witness :
    (OCCManager.Commit
      { timestamp_counter := 9, txn_id_counter := 3,
        committed_history := [⟨1, 8, ["a"]⟩, ⟨2, 9, ["b"]⟩],
        store := [("a", "1"), ("b", "2")] }
      { txn_id := 3, start_ts := 0, read_set := [],
        write_set := [("a", "9")] }).result.success = true := by
  exact (occ_empty_read_set_commits
    { timestamp_counter := 9, txn_id_counter := 3,
      committed_history := [⟨1, 8, ["a"]⟩, ⟨2, 9, ["b"]⟩],
      store := [("a", "1"), ("b", "2")] }
    { txn_id := 3, start_ts := 0, read_set := [],
      write_set := [("a", "9")] } rfl).1

/-! ## C2PL manager (C5 of the spec; `twopl_manager.cpp`). -/

/-- `TwoPLManager`'s mutable fields (`lock_mgr_`, `txn_id_counter_`) together
with the contents of the `Database&` it writes through. -/
structure TwoPLState where
  store : Store := []
  lock_table : LockTable := []
  txn_id_counter : Nat := 0
deriving DecidableEq, Repr

/-- `TwoPLManager::Begin`: allocate a `txn_id`, record `lock_keys`, then
retry `TryAcquireAll` until it succeeds (sleeping with backoff between
tries).  In this sequential model nothing can release a lock between two
retries, so a first failure would retry forever; that divergence is
returned as `none`.  On first-try success `retry_count = 0`. -/
def TwoPLManager.Begin (s : TwoPLState) (type_name : String)
    (keys : List String) : Option (Transaction × TwoPLState) :=
  let tid := s.txn_id_counter + 1
  let acq := LockManager.TryAcquireAll s.lock_table tid keys
  if acq.1 then
    some ({ txn_id := tid, type_name := type_name, start_ts := 0,
            lock_keys := keys, status := .ACTIVE, retry_count := 0 },
          { s with lock_table := acq.2, txn_id_counter := tid })
  else none

/-- The outcome of `TwoPLManager::Commit`. -/
structure TwoPLCommitOut where
  result : CommitResult
  txn : Transaction
  state : TwoPLState
deriving DecidableEq, Repr

/-- `TwoPLManager::Commit`: apply the write buffer, mark COMMITTED, release
every lock in `lock_keys`; no validation exists, success is unconditional. -/
def TwoPLManager.Commit (s : TwoPLState) (txn : Transaction) : TwoPLCommitOut :=
  let db := applyWrites s.store txn.write_set
  let txn' := { txn with status := .COMMITTED }
  let table := LockManager.ReleaseAll s.lock_table txn.txn_id txn.lock_keys
  { result := ⟨true, txn.txn_id, txn.retry_count⟩,
    txn := txn',
    state := { s with store := db, lock_table := table } }

/-- `TwoPLManager::Abort`: mark ABORTED, clear both buffers, release all
locks; the store is untouched. -/
def TwoPLManager.Abort (s : TwoPLState) (txn : Transaction) :
    Transaction × TwoPLState :=
  ({ txn with status := .ABORTED, read_set := [], write_set := [] },
   { s with lock_table :=
       LockManager.ReleaseAll s.lock_table txn.txn_id txn.lock_keys })

/-- C6: C2PL `Commit` always returns `success = true` with
`retries = retry_count`; it applies every buffered write to the store,
marks the transaction COMMITTED, and afterwards no key of `lock_keys` is
still held by this transaction. -/
theorem twopl_commit_total (s : TwoPLState) (txn : Transaction)
    (hw : (mapKeys txn.write_set).Nodup)
    (ht : (mapKeys s.lock_table).Nodup) :
    (TwoPLManager.Commit s txn).result.success = true ∧
    (TwoPLManager.Commit s txn).result.retries = txn.retry_count ∧
    (TwoPLManager.Commit s txn).txn.status = .COMMITTED ∧
    (∀ k v, mapFind? txn.write_set k = some v →
      storeGet (TwoPLManager.Commit s txn).state.store k = some v) ∧
    (∀ k ∈ txn.lock_keys,
      mapFind? (TwoPLManager.Commit s txn).state.lock_table k ≠
        some txn.txn_id) := by
  refine ⟨rfl, rfl, rfl, ?_, ?_⟩
  · intro k v h
    exact applyWrites_find_mem _ _ _ _ hw h
  · intro k hk
    show mapFind? (LockManager.ReleaseAll s.lock_table txn.txn_id
      txn.lock_keys) k ≠ some txn.txn_id
    rw [releaseAll_find _ _ _ _ ht]
    by_cases hh : mapFind? s.lock_table k = some txn.txn_id
    · simp [hk, hh]
    · simp [hk, hh]

/-- Witness for `twopl_commit_total` at a concrete manager state. -/
theorem twopl_commit_total_witness :
    (TwoPLManager.Commit
      { store := [], lock_table := [("a", 5)], txn_id_counter := 5 }
      { txn_id := 5, lock_keys := ["a"],
        write_set := [("x", "1")] }).result.success = true ∧
    storeGet (TwoPLManager.Commit
      { store := [], lock_table := [("a", 5)], txn_id_counter := 5 }
      { txn_id := 5, lock_keys := ["a"],
        write_set := [("x", "1")] }).state.store "x" = some "1" ∧
    mapFind? (TwoPLManager.Commit
      { store := [], lock_table := [("a", 5)], txn_id_counter := 5 }
      { txn_id := 5, lock_keys := ["a"],
        write_set := [("x", "1")] }).state.lock_table "a" ≠ some 5 := by
  have h := twopl_commit_total
    { store := [], lock_table := [("a", 5)], txn_id_counter := 5 }
    { txn_id := 5, lock_keys := ["a"], write_set := [("x", "1")] }
    (by decide) (by decide)
  exact ⟨h.1, h.2.2.2.1 "x" "1" (by decide), h.2.2.2.2 "a" (by decide)⟩

/-! ## Traces of the OCC manager

One worker-visible call is one atomic step: `Begin` reads the atomic
counters once, and `Commit` runs under the validation mutex. -/

/-- One call of the OCC manager's public API; a transaction object is named
by its `txn_id`. -/
inductive OCCOp where
  | beginOp (type_name : String)
  | readOp (tid : Nat) (key : String)
  | writeOp (tid : Nat) (key value : String)
  | commitOp (tid : Nat)
  | abortOp (tid : Nat)
  | gcOp (min_active_start_ts : Nat)
deriving DecidableEq, Repr

/-- The manager together with every transaction object it has handed out. -/
structure OCCSys where
  mgr : OCCState
  txns : List (Nat × Transaction)
deriving DecidableEq, Repr

def OCCSys.init (db : Store) : OCCSys :=
  ⟨{ store := db }, []⟩

def OCCSys.step (s : OCCSys) (op : OCCOp) : OCCSys :=
  match op with
  | .beginOp ty =>
      let r := OCCManager.Begin s.mgr ty
      ⟨r.2, mapInsert s.txns r.1.txn_id r.1⟩
  | .readOp tid key =>
      match mapFind? s.txns tid with
      | some txn => ⟨s.mgr, mapInsert s.txns tid (txn.Read key s.mgr.store).2⟩
      | none => s
  | .writeOp tid key value =>
      match mapFind? s.txns tid with
      | some txn => ⟨s.mgr, mapInsert s.txns tid (txn.Write key value)⟩
      | none => s
  | .commitOp tid =>
      match mapFind? s.txns tid with
      | some txn =>
          let out := OCCManager.Commit s.mgr txn
          ⟨out.state, mapInsert s.txns tid out.txn⟩
      | none => s
  | .abortOp tid =>
      match mapFind? s.txns tid with
      | some txn => ⟨s.mgr, mapInsert s.txns tid (OCCManager.Abort txn)⟩
      | none => s
  | .gcOp m => ⟨OCCManager.GarbageCollect s.mgr m, s.txns⟩

def OCCSys.run (db : Store) (ops : List OCCOp) : OCCSys :=
  ops.foldl OCCSys.step (OCCSys.init db)

/-- States the manager can actually be in, starting from an initial store. -/
def OCCReachable (db : Store) (s : OCCSys) : Prop :=
  ∃ ops, OCCSys.run db ops = s

/-- Branch equation for `Commit` when validation fails. -/
theorem occ_commit_validate_false_eq (s : OCCState) (txn : Transaction)
    (hv : OCCManager.Validate s.committed_history txn = false) :
    OCCManager.Commit s txn =
      { result := ⟨false, txn.txn_id, txn.retry_count⟩,
        txn :=
          { txn with
            validation_ts := s.timestamp_counter + 1
            status := .ABORTED },
        state := { s with timestamp_counter := s.timestamp_counter + 1 } } := by
  have hvalc : OCCManager.Validate s.committed_history
      { txn with validation_ts := s.timestamp_counter + 1 } =
      OCCManager.Validate s.committed_history txn := rfl
  simp [OCCManager.Commit, hvalc, hv]

/-- Branch equation for `Commit` when validation passes. -/
theorem occ_commit_validate_true_eq (s : OCCState) (txn : Transaction)
    (hv : OCCManager.Validate s.committed_history txn = true) :
    OCCManager.Commit s txn =
      { result := ⟨true, txn.txn_id, txn.retry_count⟩,
        txn :=
          { txn with
            validation_ts := s.timestamp_counter + 1
            finish_ts := s.timestamp_counter + 1 + 1
            status := .COMMITTED },
        state :=
          { timestamp_counter := s.timestamp_counter + 1 + 1,
            txn_id_counter := s.txn_id_counter,
            committed_history := s.committed_history ++
              [⟨txn.txn_id, s.timestamp_counter + 1 + 1, mapKeys txn.write_set⟩],
            store := applyWrites s.store txn.write_set } } := by
  have hvalc : OCCManager.Validate s.committed_history
      { txn with validation_ts := s.timestamp_counter + 1 } =
      OCCManager.Validate s.committed_history txn := rfl
  simp [OCCManager.Commit, hvalc, hv]

/-- The timestamp invariant maintained by every manager operation: no live
transaction's `start_ts` is ahead of the counter, and every committed
transaction's three timestamps are strictly ordered and behind the
counter. -/
def TsInv (s : OCCSys) : Prop :=
  ∀ tid txn, mapFind? s.txns tid = some txn →
    txn.start_ts ≤ s.mgr.timestamp_counter ∧
    (txn.status = .COMMITTED →
      txn.start_ts < txn.validation_ts ∧
      txn.validation_ts < txn.finish_ts ∧
      txn.finish_ts ≤ s.mgr.timestamp_counter)

theorem tsInv_step (s : OCCSys) (op : OCCOp) (h : TsInv s) :
    TsInv (s.step op) := by
  cases op with
  | beginOp ty =>
      intro tid txn hfind
      simp only [OCCSys.step, OCCManager.Begin] at hfind ⊢
      rw [mapFind?_mapInsert] at hfind
      by_cases htid : s.mgr.txn_id_counter + 1 = tid
      · rw [if_pos htid] at hfind
        cases hfind
        exact ⟨le_rfl, fun hst => by cases hst⟩
      · rw [if_neg htid] at hfind
        exact h tid txn hfind
  | readOp tid₀ key =>
      cases hmem : mapFind? s.txns tid₀ with
      | none =>
          intro tid txn hfind
          simp only [OCCSys.step, hmem] at hfind ⊢
          exact h tid txn hfind
      | some txn₀ =>
          intro tid txn hfind
          simp only [OCCSys.step, hmem] at hfind ⊢
          rw [mapFind?_mapInsert] at hfind
          by_cases htid : tid₀ = tid
          · subst htid
            rw [if_pos rfl] at hfind
            have h₀ := h tid₀ txn₀ hmem
            have hread : ((txn₀.Read key s.mgr.store).2.start_ts =
                txn₀.start_ts ∧
                (txn₀.Read key s.mgr.store).2.status = txn₀.status ∧
                (txn₀.Read key s.mgr.store).2.validation_ts =
                  txn₀.validation_ts ∧
                (txn₀.Read key s.mgr.store).2.finish_ts = txn₀.finish_ts) := by
              rw [Transaction.Read]
              cases mapFind? txn₀.write_set key with
              | some v => exact ⟨rfl, rfl, rfl, rfl⟩
              | none =>
                  cases storeGet s.mgr.store key with
                  | some v => exact ⟨rfl, rfl, rfl, rfl⟩
                  | none => exact ⟨rfl, rfl, rfl, rfl⟩
            obtain ⟨e₁, e₂, e₃, e₄⟩ := hread
            cases hfind
            rw [e₁, e₂, e₃, e₄]
            exact h₀
          · rw [if_neg htid] at hfind
            exact h tid txn hfind
  | writeOp tid₀ key value =>
      cases hmem : mapFind? s.txns tid₀ with
      | none =>
          intro tid txn hfind
          simp only [OCCSys.step, hmem] at hfind ⊢
          exact h tid txn hfind
      | some txn₀ =>
          intro tid txn hfind
          simp only [OCCSys.step, hmem] at hfind ⊢
          rw [mapFind?_mapInsert] at hfind
          by_cases htid : tid₀ = tid
          · subst htid
            rw [if_pos rfl] at hfind
            cases hfind
            exact h tid₀ txn₀ hmem
          · rw [if_neg htid] at hfind
            exact h tid txn hfind
  | abortOp tid₀ =>
      cases hmem : mapFind? s.txns tid₀ with
      | none =>
          intro tid txn hfind
          simp only [OCCSys.step, hmem] at hfind ⊢
          exact h tid txn hfind
      | some txn₀ =>
          intro tid txn hfind
          simp only [OCCSys.step, hmem] at hfind ⊢
          rw [mapFind?_mapInsert] at hfind
          by_cases htid : tid₀ = tid
          · subst htid
            rw [if_pos rfl] at hfind
            cases hfind
            refine ⟨(h tid₀ txn₀ hmem).1, fun hst => ?_⟩
            cases hst
          · rw [if_neg htid] at hfind
            exact h tid txn hfind
  | gcOp m =>
      intro tid txn hfind
      simp only [OCCSys.step, OCCManager.GarbageCollect] at hfind ⊢
      exact h tid txn hfind
  | commitOp tid₀ =>
      cases hmem : mapFind? s.txns tid₀ with
      | none =>
          intro tid txn hfind
          simp only [OCCSys.step, hmem] at hfind ⊢
          exact h tid txn hfind
      | some txn₀ =>
          intro tid txn hfind
          simp only [OCCSys.step, hmem] at hfind ⊢
          rw [mapFind?_mapInsert] at hfind
          have h₀ := h tid₀ txn₀ hmem
          cases hv : OCCManager.Validate s.mgr.committed_history txn₀ with
          | false =>
              rw [occ_commit_validate_false_eq _ _ hv] at hfind ⊢
              by_cases htid : tid₀ = tid
              · subst htid
                rw [if_pos rfl] at hfind
                cases hfind
                refine ⟨Nat.le_succ_of_le h₀.1, fun hst => ?_⟩
                cases hst
              · rw [if_neg htid] at hfind
                have := h tid txn hfind
                exact ⟨Nat.le_succ_of_le this.1,
                  fun hst => ⟨(this.2 hst).1, (this.2 hst).2.1,
                    Nat.le_succ_of_le (this.2 hst).2.2⟩⟩
          | true =>
              rw [occ_commit_validate_true_eq _ _ hv] at hfind ⊢
              by_cases htid : tid₀ = tid
              · subst htid
                rw [if_pos rfl] at hfind
                cases hfind
                refine ⟨Nat.le_succ_of_le (Nat.le_succ_of_le h₀.1),
                  fun _ => ⟨Nat.lt_succ_of_le h₀.1, Nat.lt_succ_self _,
                    le_rfl⟩⟩
              · rw [if_neg htid] at hfind
                have := h tid txn hfind
                exact ⟨Nat.le_succ_of_le (Nat.le_succ_of_le this.1),
                  fun hst => ⟨(this.2 hst).1, (this.2 hst).2.1,
                    Nat.le_succ_of_le (Nat.le_succ_of_le (this.2 hst).2.2)⟩⟩

theorem tsInv_foldl (ops : List OCCOp) (s : OCCSys) (h : TsInv s) :
    TsInv (ops.foldl OCCSys.step s) := by
  induction ops generalizing s with
  | nil => exact h
  | cons op rest ih => exact ih _ (tsInv_step s op h)

theorem tsInv_run (db : Store) (ops : List OCCOp) :
    TsInv (OCCSys.run db ops) := by
  refine tsInv_foldl ops _ ?_
  intro tid txn hfind
  cases hfind

/-- C4: in every reachable manager state, every committed transaction has
`start_ts < validation_ts < finish_ts`; and if a committed T₁ already
exists when T₂ enters the commit critical section (T₁'s critical section
preceded T₂'s) and T₂ commits successfully, then
`T₁.finish_ts < T₂.validation_ts`. -/
theorem occ_timestamp_discipline (db : Store) (s : OCCSys)
    (hreach : OCCReachable db s) :
    (∀ tid txn, mapFind? s.txns tid = some txn → txn.status = .COMMITTED →
      txn.start_ts < txn.validation_ts ∧
      txn.validation_ts < txn.finish_ts) ∧
    (∀ tid₁ t₁ tid₂ t₂, mapFind? s.txns tid₁ = some t₁ →
      t₁.status = .COMMITTED → mapFind? s.txns tid₂ = some t₂ →
      (OCCManager.Commit s.mgr t₂).result.success = true →
      t₁.finish_ts < (OCCManager.Commit s.mgr t₂).txn.validation_ts) := by
  obtain ⟨ops, hops⟩ := hreach
  have hinv : TsInv s := hops ▸ tsInv_run db ops
  constructor
  · intro tid txn hfind hst
    exact ⟨((hinv tid txn hfind).2 hst).1, ((hinv tid txn hfind).2 hst).2.1⟩
  · intro tid₁ t₁ tid₂ t₂ h₁ hst₁ h₂ hsucc
    have hfin : t₁.finish_ts ≤ s.mgr.timestamp_counter :=
      ((hinv tid₁ t₁ h₁).2 hst₁).2.2
    have hval : (OCCManager.Commit s.mgr t₂).txn.validation_ts =
        s.mgr.timestamp_counter + 1 := by
      cases hv : OCCManager.Validate s.mgr.committed_history t₂ with
      | false => rw [occ_commit_validate_false_eq _ _ hv]
      | true => rw [occ_commit_validate_true_eq _ _ hv]
    rw [hval]
    exact Nat.lt_succ_of_le hfin

/-- Concrete three-step trace used to witness `occ_timestamp_discipline`. -/
def occTraceW : List OCCOp := [.beginOp "t", .commitOp 1, .beginOp "u"]

/-- The committed transaction produced by `occTraceW`. -/
def occTxn1W : Transaction :=
  { txn_id := 1, type_name := "t", validation_ts := 1, finish_ts := 2,
    status := .COMMITTED }

/-- The still-active transaction produced by `occTraceW`. -/
def occTxn2W : Transaction := { txn_id := 2, type_name := "u", start_ts := 2 }

/-- Witness for `occ_timestamp_discipline` on the trace `occTraceW`. -/
theorem occ_timestamp_discipline_witness :
    (occTxn1W.start_ts < occTxn1W.validation_ts ∧
      occTxn1W.validation_ts < occTxn1W.finish_ts) ∧
    occTxn1W.finish_ts <
      (OCCManager.Commit (OCCSys.run [] occTraceW).mgr occTxn2W).txn.validation_ts := by
  have h := occ_timestamp_discipline [] (OCCSys.run [] occTraceW)
    ⟨occTraceW, rfl⟩
  have h1 := h.1 1 occTxn1W (by decide) rfl
  have h2 := h.2 1 occTxn1W 2 occTxn2W (by decide) rfl (by decide) (by decide)
  exact ⟨h1, h2⟩

/-! ## Workload templates (C7 of the spec; `workload_template.h`).

A template body receives a `TransactionManager&` and the drawn `keys`; the
interface is modelled as a record of the four virtual calls over an
abstract manager-state type. -/

/-- The `TransactionManager` interface as the template bodies consume it
(`transaction_manager.h`).  `beginTxn` is `Begin(type_name, keys)`; it
returns `none` when the call would never return (C2PL `Begin` retrying
forever).  `readTxn` and `writeTxn` delegate to the transaction object and
leave the manager state unchanged, as both managers do. -/
structure ManagerOps (σ : Type) where
  beginTxn : σ → String → List String → Option (Transaction × σ)
  readTxn : σ → Transaction → String → Option String × Transaction
  writeTxn : Transaction → String → String → Transaction
  commitTxn : σ → Transaction → CommitResult × Transaction × σ

/-- `val.has_value() ? std::stoi(val.value()) : 0`, the value decoding used
by every template.  The workload only ever stores decimal integers;
`stoi`'s exception on non-numeric text is outside those inputs and is
rendered as 0. -/
def stoiOr0 (v : Option String) : Int :=
  match v with
  | some str => (str.toInt?).getD 0
  | none => 0

/-- `MakeTransferTemplate().execute` (`workload_template.h`): read two
balances, move 10 from the first to the second, write both back, commit.
The body calls `mgr.Begin("transfer")`, leaving `Begin`'s `keys` parameter
at its declared default `{}`.  `keys[i]` (unchecked `std::vector` indexing,
always in range as called) is `keys.getD i ""`. -/
def MakeTransferTemplate.execute {σ : Type} (M : ManagerOps σ) (s : σ)
    (keys : List String) : Option (CommitResult × σ) :=
  match M.beginTxn s "transfer" [] with
  | none => none
  | some (txn, s) =>
    let r₁ := M.readTxn s txn (keys.getD 0 "")
    let balance_a := stoiOr0 r₁.1
    let r₂ := M.readTxn s r₁.2 (keys.getD 1 "")
    let balance_b := stoiOr0 r₂.1
    let balance_a := balance_a - 10
    let balance_b := balance_b + 10
    let txn := M.writeTxn r₂.2 (keys.getD 0 "") (toString balance_a)
    let txn := M.writeTxn txn (keys.getD 1 "") (toString balance_b)
    let r := M.commitTxn s txn
    some (r.1, r.2.2)

/-- `MakeBalanceCheckTemplate().execute`: one read, then commit.  The body
calls `mgr.Begin("balance_check")` with the default empty key list. -/
def MakeBalanceCheckTemplate.execute {σ : Type} (M : ManagerOps σ) (s : σ)
    (keys : List String) : Option (CommitResult × σ) :=
  match M.beginTxn s "balance_check" [] with
  | none => none
  | some (txn, s) =>
    let r₁ := M.readTxn s txn (keys.getD 0 "")
    let r := M.commitTxn s r₁.2
    some (r.1, r.2.2)

/-- `MakeWriteHeavyTemplate(n).execute`: for each `i < n` read `keys[i]`
and write back its value plus one, then commit.  The body calls
`mgr.Begin("write_heavy")` with the default empty key list. -/
def MakeWriteHeavyTemplate.execute {σ : Type} (n : Nat) (M : ManagerOps σ)
    (s : σ) (keys : List String) : Option (CommitResult × σ) :=
  match M.beginTxn s "write_heavy" [] with
  | none => none
  | some (txn, s) =>
    let txn := (List.range n).foldl
      (fun txn i =>
        let r := M.readTxn s txn (keys.getD i "")
        let current := stoiOr0 r.1
        M.writeTxn r.2 (keys.getD i "") (toString (current + 1)))
      txn
    let r := M.commitTxn s txn
    some (r.1, r.2.2)

/-- The C2PL manager packaged as the interface the templates consume. -/
def twoplOps : ManagerOps TwoPLState :=
  { beginTxn := fun s ty keys => TwoPLManager.Begin s ty keys
    readTxn := fun s txn key => txn.Read key s.store
    writeTxn := fun txn key v => txn.Write key v
    commitTxn := fun s txn =>
      let out := TwoPLManager.Commit s txn
      (out.result, out.txn, out.state) }

/-- An instrumented manager whose state is the list of `keys` arguments
that `Begin` has received, in call order; it observes what a template body
passes to `Begin`. -/
def beginLogger : ManagerOps (List (List String)) :=
  { beginTxn := fun log _ keys => some ({ txn_id := 1 }, log ++ [keys])
    readTxn := fun _ txn _ => (none, txn)
    writeTxn := fun txn _ _ => txn
    commitTxn := fun log txn => (⟨true, txn.txn_id, txn.retry_count⟩, txn, log) }

/-- C2 as stated is false: `transfer`'s `execute` calls `Begin` with the
empty key list, not with `keys` — the begin log of a run on
`["account_0", "account_1"]` is `[[]]` — and consequently under C2PL the
`Begin` the body performs acquires no lock at all (the lock table stays
empty). -/
theorem transfer_ignores_keys_at_begin :
    (MakeTransferTemplate.execute beginLogger []
      ["account_0", "account_1"]).map Prod.snd = some [[]] ∧
    ([[]] : List (List String)) ≠ [["account_0", "account_1"]] ∧
    (TwoPLManager.Begin { store := [], lock_table := [], txn_id_counter := 0 }
      "transfer" []).map (fun r => r.2.lock_table) = some [] := by
  refine ⟨?_, ?_, ?_⟩ <;> decide

/-- C2 amended: every workload template's `execute` calls the manager's
`Begin` exactly once and passes it the **empty** key list — the drawn
`keys` only select which keys the body reads and writes — and a C2PL
`Begin` with an empty key list acquires no locks (the lock table is
returned unchanged). -/
theorem templates_begin_with_empty_keys (keys : List String) (n : Nat)
    (log : List (List String)) (s : TwoPLState) (ty : String) :
    (MakeTransferTemplate.execute beginLogger log keys).map Prod.snd =
      some (log ++ [[]]) ∧
    (MakeBalanceCheckTemplate.execute beginLogger log keys).map Prod.snd =
      some (log ++ [[]]) ∧
    (MakeWriteHeavyTemplate.execute n beginLogger log keys).map Prod.snd =
      some (log ++ [[]]) ∧
    (TwoPLManager.Begin s ty []).map (fun r => r.2.lock_table) =
      some s.lock_table := by
  refine ⟨rfl, rfl, rfl, ?_⟩
  simp [TwoPLManager.Begin, LockManager.TryAcquireAll]

/-! ## Entry point (`main.cpp`). -/

/-- The exit-code skeleton of `main` (`main.cpp`): exit 1 when the database
fails to open; exit 1 for any `--protocol` value other than `"occ"`
(printed as `Unknown protocol`); otherwise the workload runs and `main`
returns 0. -/
def mainExitCode (db_open_ok : Bool) (protocol : String) : Nat :=
  if !db_open_ok then 1
  else if protocol ≠ "occ" then 1
  else 0

/-- C8: the entry point accepts only `occ`.  `--protocol 2pl` — documented
in the README's command-line table and examples — is rejected as an
unknown protocol with exit code 1 instead of running the C2PL manager. -/
theorem main_rejects_2pl :
    mainExitCode true "2pl" = 1 ∧
    mainExitCode true "occ" = 0 ∧
    mainExitCode false "occ" = 1 := by
  decide

end TxnSys
